import Mathlib

/-!
Verification development for `pcpgfpecdh.c` (Intel IPP crypto): the two
EC-over-GF(p^m) Diffie-Hellman shared-secret entry points
`ippsGFpECSharedSecretDH` and `ippsGFpECSharedSecretDHC`.

The file shallow-embeds the orchestration code of `pcpgfpecdh.c`.  The
arithmetic collaborators (`gfec_MulPoint`, `gfec_GetPoint`, the Montgomery
engine, the field codec, the pools) live outside this repository's source
tree; they are modelled from the specification's collaborator contracts
(each such definition carries a doc comment starting `Modelled from the
spec:`).  The orchestration itself — validation order, the cofactor
scaling chain, the result-encoding steps, the pool lifecycle and the
returned statuses — is translated line by line from the C file.
-/

namespace EpidEcdh

/-- IPP status codes that the two shared-secret entry points can return
(`ippStsNoErr`, `ippStsNullPtrErr`, `ippStsContextMatchErr`,
`ippStsRangeErr`, `ippStsShareKeyErr`). -/
inductive IppStatus where
  | ippStsNoErr
  | ippStsNullPtrErr
  | ippStsContextMatchErr
  | ippStsRangeErr
  | ippStsShareKeyErr
deriving DecidableEq, Repr

export IppStatus (ippStsNoErr ippStsNullPtrErr ippStsContextMatchErr ippStsRangeErr ippStsShareKeyErr)

/-- Sign of an IPP big number (`BN_SIGN`). -/
inductive IppsBigNumSGN where
  | ippBigNumNEG
  | ippBigNumPOS
deriving DecidableEq, Repr

export IppsBigNumSGN (ippBigNumNEG ippBigNumPOS)

/-- Radix of one `BNU_CHUNK_T` limb (64-bit machine words). -/
def BNU_RADIX : Nat := 2 ^ 64

/-- Value of a little-endian limb sequence (`BNU_CHUNK_T` array). -/
def bnuToNat : List Nat → Nat
  | [] => 0
  | d :: ds => d + BNU_RADIX * bnuToNat ds

/-- Write a value into a limb buffer of length `ns` (little-endian,
truncating above `BNU_RADIX ^ ns`). -/
def natToBnu : Nat → Nat → List Nat
  | 0, _ => []
  | ns + 1, v => v % BNU_RADIX :: natToBnu ns (v / BNU_RADIX)

/-- Length of a limb list up to its highest nonzero limb
(index of the last nonzero limb, plus one). -/
def bnuLen : List Nat → Nat
  | [] => 0
  | d :: ds =>
    let r := bnuLen ds
    if r = 0 then (if d = 0 then 0 else 1) else r + 1

/-- The `FIX_BNU(src, srcLen)` macro: starting from the full buffer
length, drop high-order zero limbs while more than one limb remains.
Returns the adjusted length (0 only for an empty buffer). -/
def FIX_BNU (pData : List Nat) : Nat :=
  if pData.isEmpty then 0 else max 1 (bnuLen pData)

/-- `IppsBigNumState`: limb array `number` (`BN_NUMBER`), declared size
`size` (`BN_SIZE`), capacity `room` (`BN_ROOM`), sign (`BN_SIGN`) and the
context-id tag checked by `BN_VALID_ID`. -/
structure IppsBigNumState where
  idCtx : Bool
  sgn : IppsBigNumSGN
  size : Nat
  room : Nat
  number : List Nat
deriving DecidableEq, Repr

/-- `IppsGFpECPoint`: the context-id tag checked by `ECP_POINT_TEST_ID`
and the point's value.  Modelled from the spec: the curve group is
rendered as the cyclic group of residues modulo the full point count
(cofactor × subgroup order), `pointValue` being the residue and `0` the
identity element (point at infinity). -/
structure IppsGFpECPoint where
  idCtx : Bool
  pointValue : Nat
deriving DecidableEq, Repr

/-- `IppsGFpECState` (the EC curve context): context-id tag
(`ECP_TEST_ID`), field-element length `felen` (`GFP_FELEN`), the
group-order Montgomery engine `ECP_MONT_R` (modulus `orderN`, limb width
`ordLen` = `MOD_LEN`, Montgomery constant `montR` and its inverse
`montRinv`), the cofactor (`ECP_COFACTOR`), the generator, the field
decode transform (`GFP_METHOD(pGFE)->decode`, internal x-representation
to canonical limbs) and the internal x-representation `xRepr` of a
finite point.  The function fields are modelled from the spec's
collaborator contracts. -/
structure IppsGFpECState where
  idCtx : Bool
  felen : Nat
  ordLen : Nat
  orderN : Nat
  montR : Nat
  montRinv : Nat
  cofactor : Nat
  genG : Nat
  decode : Nat → List Nat
  xRepr : Nat → Nat

/-- Number of points of the modelled curve group:
cofactor × subgroup order. -/
def ecGroupSize (pEC : IppsGFpECState) : Nat :=
  pEC.cofactor * pEC.orderN

/-- Reservation/release counters of the curve context's two scratch
pools (the field-element pool of `pGFE` and the point pool of `pEC`).
Modelled from the spec: the pool manager hands out slots and reclaims
them; we track cumulative reservation and release counts, the buffer
contents being carried by the local values of the embedding. -/
structure ECPools where
  gfpReserved : Nat
  gfpReleased : Nat
  ecReserved : Nat
  ecReleased : Nat
deriving DecidableEq, Repr

/-- Modelled from the spec: `cpGFpGetPool(n, pGFE)` reserves `n` scratch
field elements from the field-element pool. -/
def cpGFpGetPool (n : Nat) (pools : ECPools) : ECPools :=
  { pools with gfpReserved := pools.gfpReserved + n }

/-- Modelled from the spec: `cpEcGFpGetPool(n, pEC)` reserves `n`
scratch points from the point pool. -/
def cpEcGFpGetPool (n : Nat) (pools : ECPools) : ECPools :=
  { pools with ecReserved := pools.ecReserved + n }

/-- Modelled from the spec: `cpGFpReleasePool(n, pGFE)` releases `n`
scratch field elements back to the field-element pool. -/
def cpGFpReleasePool (n : Nat) (pools : ECPools) : ECPools :=
  { pools with gfpReleased := pools.gfpReleased + n }

/-- Modelled from the spec: `cpEcGFpReleasePool(n, pEC)` releases `n`
scratch points back to the point pool. -/
def cpEcGFpReleasePool (n : Nat) (pools : ECPools) : ECPools :=
  { pools with ecReleased := pools.ecReleased + n }

/-- Modelled from the spec: `gfec_MulPoint(&T, P, scalar, scalarLen,
pEC, scratch)` computes `T = [scalar]P` by constant-time scalar
multiplication; in the cyclic model the result is the residue of
`scalar * P` modulo the group size. -/
def gfec_MulPoint (pEC : IppsGFpECState) (pPoint : Nat)
    (pScalar : List Nat) (scalarLen : Nat) : Nat :=
  (bnuToNat (pScalar.take scalarLen) * pPoint) % ecGroupSize pEC

/-- Modelled from the spec: `gfec_GetPoint(pX, NULL, &T, pEC)` extracts
the affine x-coordinate of `T` in field-internal representation and
reports whether `T` is a finite point; for the identity element
(residue 0) it reports false and writes no meaningful coordinate. -/
def gfec_GetPoint (pEC : IppsGFpECState) (T : Nat) : Bool × Nat :=
  if T % ecGroupSize pEC = 0 then (false, 0) else (true, pEC.xRepr T)

/-- Modelled from the spec: `cpGFpElementPadd(ptr, len, 0)` fills `len`
limbs with zero. -/
def cpGFpElementPadd (len : Nat) : List Nat :=
  List.replicate len 0

/-- Modelled from the spec: `cpMontEnc_BNU_EX(pR, pA, nsA, montR)`
encodes the `nsA`-limb value `pA` into the Montgomery domain of the
engine (modulus `m`, constant `R`), writing an `nsM`-limb result. -/
def cpMontEnc_BNU_EX (pA : List Nat) (nsA : Nat) (m R nsM : Nat) : List Nat :=
  natToBnu nsM (bnuToNat (pA.take nsA) * R % m)

/-- Modelled from the spec: `cpMontMul_BNU_EX(pR, pA, nsA, pB, nsB,
montR)` multiplies in the Montgomery domain (result
`a * b * R⁻¹ mod m`), writing an `nsM`-limb result. -/
def cpMontMul_BNU_EX (pA : List Nat) (nsA : Nat) (pB : List Nat) (nsB : Nat)
    (m Rinv nsM : Nat) : List Nat :=
  natToBnu nsM (bnuToNat (pA.take nsA) * bnuToNat (pB.take nsB) * Rinv % m)

/-- The cofactor-scaled scalar `F` of `ippsGFpECSharedSecretDHC`
(source lines 200–202): `F = cpMontMul_BNU_EX(F, F, nsR, ECP_COFACTOR,
1, montR)` applied to `F = cpMontEnc_BNU_EX(F, BN_NUMBER(pPrivateA),
BN_SIZE(pPrivateA), montR)`, held in an `nsR`-limb scratch buffer from
the field-element pool. -/
def cofactorScaledF (pEC : IppsGFpECState) (privA : IppsBigNumState) : List Nat :=
  cpMontMul_BNU_EX
    (cpMontEnc_BNU_EX privA.number privA.size pEC.orderN pEC.montR pEC.ordLen)
    pEC.ordLen [pEC.cofactor] 1 pEC.orderN pEC.montRinv pEC.ordLen

/-- Result of one call: the returned status, the (possibly updated)
shared-secret big number, and the pool counters after the call. -/
structure CallResult where
  status : IppStatus
  share : Option IppsBigNumState
  pools : ECPools
deriving DecidableEq, Repr

/-- The result-encoder steps of both entry points (source lines
110–119 / 212–221): decode the internal x-representation into the low
`elmLen` limbs of the share buffer, zero-fill up to `room`
(`cpGFpElementPadd`), force the sign positive, and set the size to the
`FIX_BNU`-normalized length of the `room`-limb buffer. -/
def encodeShare (pEC : IppsGFpECState) (share : IppsBigNumState) (x : Nat) :
    IppsBigNumState :=
  let pShareData := pEC.decode x ++ cpGFpElementPadd (share.room - pEC.felen)
  { share with
      number := pShareData
      sgn := ippBigNumPOS
      size := FIX_BNU pShareData }

/-- Computation block of `ippsGFpECSharedSecretDH` after validation
(source lines 95–126): reserve a scratch point, `T = [privateA]PublicB`,
reserve a scratch field element, extract `T.x`, encode the share when
the point is finite, release both pool slots, and return
`ippStsNoErr`/`ippStsShareKeyErr`. -/
def dhCompute (pEC : IppsGFpECState) (privA : IppsBigNumState)
    (pubB : IppsGFpECPoint) (share : IppsBigNumState) (pools : ECPools) :
    CallResult :=
  let pools1 := cpEcGFpGetPool 1 pools
  let T := gfec_MulPoint pEC pubB.pointValue privA.number privA.size
  let pools2 := cpGFpGetPool 1 pools1
  let finite_point := (gfec_GetPoint pEC T).1
  let x := (gfec_GetPoint pEC T).2
  let share1 := if finite_point then encodeShare pEC share x else share
  let pools3 := cpEcGFpReleasePool 1 (cpGFpReleasePool 1 pools2)
  ⟨if finite_point then ippStsNoErr else ippStsShareKeyErr, some share1, pools3⟩

/-- Computation block of `ippsGFpECSharedSecretDHC` after validation
(source lines 189–228): reserve a scratch field element holding `F`,
compute the cofactor-scaled scalar `F`, reserve a scratch point,
`FIX_BNU(F, nsR)`, `T = [F]PublicB`, extract `T.x` (the element buffer
reuses `F`'s pool slot), encode the share when the point is finite,
release both pool slots, and return `ippStsNoErr`/`ippStsShareKeyErr`. -/
def dhcCompute (pEC : IppsGFpECState) (privA : IppsBigNumState)
    (pubB : IppsGFpECPoint) (share : IppsBigNumState) (pools : ECPools) :
    CallResult :=
  let pools1 := cpGFpGetPool 1 pools
  let F := cofactorScaledF pEC privA
  let pools2 := cpEcGFpGetPool 1 pools1
  let nsF := FIX_BNU F
  let T := gfec_MulPoint pEC pubB.pointValue F nsF
  let finite_point := (gfec_GetPoint pEC T).1
  let x := (gfec_GetPoint pEC T).2
  let share1 := if finite_point then encodeShare pEC share x else share
  let pools3 := cpEcGFpReleasePool 1 (cpGFpReleasePool 1 pools2)
  ⟨if finite_point then ippStsNoErr else ippStsShareKeyErr, some share1, pools3⟩

/-- `ippsGFpECSharedSecretDH` (source lines 65–127).  Nullable pointer
arguments are `Option`s; the validation sequence mirrors the source:
`IPP_BAD_PTR2_RET(pEC, pScratchBuffer)`, `ECP_TEST_ID`, then the
private key (null, tag), the public key (null, tag), the share (null,
tag, `BN_ROOM < GFP_FELEN` ⇒ `ippStsRangeErr`), then the computation
block. -/
def ippsGFpECSharedSecretDH (pPrivateA : Option IppsBigNumState)
    (pPublicB : Option IppsGFpECPoint) (pShare : Option IppsBigNumState)
    (pEC : Option IppsGFpECState) (pScratchBuffer : Option Unit)
    (pools : ECPools) : CallResult :=
  match pEC, pScratchBuffer with
  | none, _ => ⟨ippStsNullPtrErr, pShare, pools⟩
  | some _, none => ⟨ippStsNullPtrErr, pShare, pools⟩
  | some ec, some _ =>
    if !ec.idCtx then ⟨ippStsContextMatchErr, pShare, pools⟩ else
    match pPrivateA with
    | none => ⟨ippStsNullPtrErr, pShare, pools⟩
    | some privA =>
      if !privA.idCtx then ⟨ippStsContextMatchErr, pShare, pools⟩ else
      match pPublicB with
      | none => ⟨ippStsNullPtrErr, pShare, pools⟩
      | some pubB =>
        if !pubB.idCtx then ⟨ippStsContextMatchErr, pShare, pools⟩ else
        match pShare with
        | none => ⟨ippStsNullPtrErr, none, pools⟩
        | some share =>
          if !share.idCtx then ⟨ippStsContextMatchErr, some share, pools⟩ else
          if share.room < ec.felen then ⟨ippStsRangeErr, some share, pools⟩ else
          dhCompute ec privA pubB share pools

/-- `ippsGFpECSharedSecretDHC` (source lines 159–229): identical
validation sequence, then the cofactor computation block. -/
def ippsGFpECSharedSecretDHC (pPrivateA : Option IppsBigNumState)
    (pPublicB : Option IppsGFpECPoint) (pShare : Option IppsBigNumState)
    (pEC : Option IppsGFpECState) (pScratchBuffer : Option Unit)
    (pools : ECPools) : CallResult :=
  match pEC, pScratchBuffer with
  | none, _ => ⟨ippStsNullPtrErr, pShare, pools⟩
  | some _, none => ⟨ippStsNullPtrErr, pShare, pools⟩
  | some ec, some _ =>
    if !ec.idCtx then ⟨ippStsContextMatchErr, pShare, pools⟩ else
    match pPrivateA with
    | none => ⟨ippStsNullPtrErr, pShare, pools⟩
    | some privA =>
      if !privA.idCtx then ⟨ippStsContextMatchErr, pShare, pools⟩ else
      match pPublicB with
      | none => ⟨ippStsNullPtrErr, pShare, pools⟩
      | some pubB =>
        if !pubB.idCtx then ⟨ippStsContextMatchErr, pShare, pools⟩ else
        match pShare with
        | none => ⟨ippStsNullPtrErr, none, pools⟩
        | some share =>
          if !share.idCtx then ⟨ippStsContextMatchErr, some share, pools⟩ else
          if share.room < ec.felen then ⟨ippStsRangeErr, some share, pools⟩ else
          dhcCompute ec privA pubB share pools

/-- All four context-tag checks pass and the share buffer has room for
a field element: the condition under which either entry point reaches
its computation block. -/
def validCall (pEC : IppsGFpECState) (privA : IppsBigNumState)
    (pubB : IppsGFpECPoint) (share : IppsBigNumState) : Prop :=
  pEC.idCtx = true ∧ privA.idCtx = true ∧ pubB.idCtx = true ∧
    share.idCtx = true ∧ pEC.felen ≤ share.room

instance (pEC privA pubB share) : Decidable (validCall pEC privA pubB share) := by
  unfold validCall; infer_instance

/-- Well-formedness of the curve context's group-order Montgomery
engine: positive modulus that fits its declared limb width, and a
Montgomery constant with a genuine inverse modulo the order. -/
def ECWellFormed (pEC : IppsGFpECState) : Prop :=
  0 < pEC.orderN ∧ pEC.orderN ≤ BNU_RADIX ^ pEC.ordLen ∧
    pEC.montR * pEC.montRinv % pEC.orderN = 1 % pEC.orderN

instance (pEC) : Decidable (ECWellFormed pEC) := by
  unfold ECWellFormed; infer_instance

/-- Shape of a successfully written share buffer, stated the way the
spec describes it: the low `felen` limbs hold the decoded canonical
x-coordinate, every limb from `felen` up to the original capacity
`room` is zero, the sign is positive, and the reported size is the
normalized length — it preserves the value, everything at or above it
is zero, it is minimal, and it is never below 1 limb. -/
def goodShareOutput (pEC : IppsGFpECState) (x : Nat)
    (share0 sh : IppsBigNumState) : Prop :=
  sh.number.length = share0.room ∧
  sh.number.take pEC.felen = pEC.decode x ∧
  sh.number.drop pEC.felen = List.replicate (share0.room - pEC.felen) 0 ∧
  sh.sgn = ippBigNumPOS ∧
  1 ≤ sh.size ∧
  sh.size ≤ sh.number.length ∧
  bnuToNat (sh.number.take sh.size) = bnuToNat sh.number ∧
  (∀ j, sh.size ≤ j → sh.number.getD j 0 = 0) ∧
  (sh.size = 1 ∨ sh.number.getD (sh.size - 1) 0 ≠ 0)

/-! ## Concrete fixtures (used by the witness theorems) -/

/-- A small valid curve context: one-limb field, subgroup order 5,
cofactor 1, Montgomery constant 3 with inverse 2 (3·2 ≡ 1 mod 5). -/
def ecP5 : IppsGFpECState :=
  { idCtx := true, felen := 1, ordLen := 1, orderN := 5, montR := 3,
    montRinv := 2, cofactor := 1, genG := 1,
    decode := fun x => [x], xRepr := fun x => x }

/-- The same curve context with an invalid context tag. -/
def ecBadTag : IppsGFpECState := { ecP5 with idCtx := false }

/-- The same curve context with cofactor 2 (group size 10). -/
def ecP5co2 : IppsGFpECState := { ecP5 with cofactor := 2 }

/-- A valid one-limb big number holding 2. -/
def bnTwo : IppsBigNumState :=
  { idCtx := true, sgn := ippBigNumPOS, size := 1, room := 1, number := [2] }

/-- A valid one-limb big number holding 3. -/
def bnThree : IppsBigNumState := { bnTwo with number := [3] }

/-- A valid share buffer with room 2, holding stale limbs. -/
def shareBuf : IppsBigNumState :=
  { idCtx := true, sgn := ippBigNumNEG, size := 2, room := 2, number := [7, 7] }

/-- A valid share buffer with no room at all. -/
def shareNoRoom : IppsBigNumState :=
  { idCtx := true, sgn := ippBigNumNEG, size := 0, room := 0, number := [] }

/-- A valid public point: the identity element. -/
def pubIdent : IppsGFpECPoint := { idCtx := true, pointValue := 0 }

/-- A valid public point with residue 2 (equal to [2]·G on `ecP5`). -/
def pubTwo : IppsGFpECPoint := { idCtx := true, pointValue := 2 }

/-- A valid public point with residue 3 (equal to [3]·G on `ecP5`). -/
def pubThree : IppsGFpECPoint := { idCtx := true, pointValue := 3 }

/-- Pool counters at rest. -/
def pools0 : ECPools := ⟨0, 0, 0, 0⟩

/-! ## Supporting lemmas -/

theorem dh_valid_eq (pEC : IppsGFpECState) (privA : IppsBigNumState)
    (pubB : IppsGFpECPoint) (share : IppsBigNumState) (pools : ECPools)
    (h : validCall pEC privA pubB share) :
    ippsGFpECSharedSecretDH (some privA) (some pubB) (some share) (some pEC)
      (some ()) pools = dhCompute pEC privA pubB share pools := by
  obtain ⟨h1, h2, h3, h4, h5⟩ := h
  simp [ippsGFpECSharedSecretDH, h1, h2, h3, h4, Nat.not_lt.mpr h5]

theorem dhc_valid_eq (pEC : IppsGFpECState) (privA : IppsBigNumState)
    (pubB : IppsGFpECPoint) (share : IppsBigNumState) (pools : ECPools)
    (h : validCall pEC privA pubB share) :
    ippsGFpECSharedSecretDHC (some privA) (some pubB) (some share) (some pEC)
      (some ()) pools = dhcCompute pEC privA pubB share pools := by
  obtain ⟨h1, h2, h3, h4, h5⟩ := h
  simp [ippsGFpECSharedSecretDHC, h1, h2, h3, h4, Nat.not_lt.mpr h5]

theorem bnuLen_le_length (l : List Nat) : bnuLen l ≤ l.length := by
  induction l with
  | nil => simp [bnuLen]
  | cons d ds ih =>
    simp only [bnuLen, List.length_cons]
    split
    · split <;> omega
    · omega

theorem bnuToNat_eq_zero_of_bnuLen_eq_zero (l : List Nat) (h : bnuLen l = 0) :
    bnuToNat l = 0 := by
  induction l with
  | nil => rfl
  | cons d ds ih =>
    simp only [bnuLen] at h
    split at h
    · split at h
      · next hr hd =>
        simp [bnuToNat, hd, ih hr]
      · omega
    · omega

theorem getD_eq_zero_of_bnuLen_le (l : List Nat) (j : Nat) (h : bnuLen l ≤ j) :
    l.getD j 0 = 0 := by
  induction l generalizing j with
  | nil => simp [List.getD]
  | cons d ds ih =>
    simp only [bnuLen] at h
    cases j with
    | zero =>
      split at h
      · split at h
        · next hr hd => simpa [List.getD] using hd
        · omega
      · omega
    | succ j =>
      have hds : bnuLen ds ≤ j := by
        split at h
        · next hr => omega
        · omega
      simpa [List.getD] using ih j hds

theorem bnuToNat_take_bnuLen (l : List Nat) :
    bnuToNat (l.take (bnuLen l)) = bnuToNat l := by
  induction l with
  | nil => rfl
  | cons d ds ih =>
    simp only [bnuLen]
    split
    · next hr =>
      split
      · next hd =>
        simp [bnuToNat, hd, bnuToNat_eq_zero_of_bnuLen_eq_zero ds hr]
      · next hd =>
        simp [bnuToNat, bnuToNat_eq_zero_of_bnuLen_eq_zero ds hr]
    · next hr =>
      simp only [List.take_succ_cons, bnuToNat, ih]

theorem bnuLen_getD_last_ne_zero (l : List Nat) (h : 1 ≤ bnuLen l) :
    l.getD (bnuLen l - 1) 0 ≠ 0 := by
  induction l with
  | nil => simp [bnuLen] at h
  | cons d ds ih =>
    by_cases hr : bnuLen ds = 0
    · by_cases hd : d = 0
      · simp [bnuLen, hr, hd] at h
      · simp [bnuLen, hr, hd, List.getD_cons_zero]
    · have h1 : 1 ≤ bnuLen ds := Nat.one_le_iff_ne_zero.mpr hr
      have hlen : bnuLen (d :: ds) = bnuLen ds + 1 := by simp [bnuLen, hr]
      rw [hlen, Nat.add_sub_cancel]
      have h2 := ih h1
      cases hb : bnuLen ds with
      | zero => omega
      | succ k =>
        rw [hb] at h2
        rw [Nat.add_sub_cancel] at h2
        simpa [List.getD_cons_succ] using h2

theorem bnuLen_le_FIX_BNU (l : List Nat) : bnuLen l ≤ FIX_BNU l := by
  cases l with
  | nil => simp [bnuLen, FIX_BNU]
  | cons d ds => simp [FIX_BNU]

theorem FIX_BNU_pos (l : List Nat) (h : l ≠ []) : 1 ≤ FIX_BNU l := by
  cases l with
  | nil => simp at h
  | cons d ds => simp [FIX_BNU]

theorem FIX_BNU_le_length (l : List Nat) (h : l ≠ []) : FIX_BNU l ≤ l.length := by
  cases l with
  | nil => simp at h
  | cons d ds =>
    have := bnuLen_le_length (d :: ds)
    simp only [FIX_BNU, List.isEmpty_cons, Bool.false_eq_true, if_false]
    simp only [List.length_cons] at *
    omega

theorem bnuToNat_take_FIX_BNU (l : List Nat) :
    bnuToNat (l.take (FIX_BNU l)) = bnuToNat l := by
  cases l with
  | nil => rfl
  | cons d ds =>
    simp only [FIX_BNU, List.isEmpty_cons, Bool.false_eq_true, if_false]
    rcases Nat.eq_zero_or_pos (bnuLen (d :: ds)) with h0 | h1
    · have hd : d = 0 := by
        simpa using getD_eq_zero_of_bnuLen_le (d :: ds) 0 (le_of_eq h0)
      have hz := bnuToNat_eq_zero_of_bnuLen_eq_zero (d :: ds) h0
      rw [h0, hz]
      simp [bnuToNat, hd]
    · rw [Nat.max_eq_right h1, bnuToNat_take_bnuLen]

theorem getD_eq_zero_of_FIX_BNU_le (l : List Nat) (j : Nat)
    (h : FIX_BNU l ≤ j) : l.getD j 0 = 0 :=
  getD_eq_zero_of_bnuLen_le l j (le_trans (bnuLen_le_FIX_BNU l) h)

theorem FIX_BNU_minimal (l : List Nat) (h : l ≠ []) :
    FIX_BNU l = 1 ∨ l.getD (FIX_BNU l - 1) 0 ≠ 0 := by
  cases l with
  | nil => simp at h
  | cons d ds =>
    simp only [FIX_BNU, List.isEmpty_cons, Bool.false_eq_true, if_false]
    rcases Nat.eq_zero_or_pos (bnuLen (d :: ds)) with h0 | h1
    · left; simp [h0]
    · right
      rw [Nat.max_eq_right h1]
      exact bnuLen_getD_last_ne_zero _ h1

theorem natToBnu_length (ns v : Nat) : (natToBnu ns v).length = ns := by
  induction ns generalizing v with
  | zero => rfl
  | succ n ih => simp [natToBnu, ih]

theorem bnuToNat_natToBnu (ns v : Nat) :
    bnuToNat (natToBnu ns v) = v % BNU_RADIX ^ ns := by
  induction ns generalizing v with
  | zero => simp [natToBnu, bnuToNat, Nat.mod_one]
  | succ n ih =>
    rw [pow_succ', Nat.mod_mul]
    simp [natToBnu, bnuToNat, ih]

theorem bnuToNat_natToBnu_of_lt (ns v : Nat) (h : v < BNU_RADIX ^ ns) :
    bnuToNat (natToBnu ns v) = v := by
  rw [bnuToNat_natToBnu, Nat.mod_eq_of_lt h]

/-- Value of the cofactor-scaled scalar as it is fed to
`gfec_MulPoint` (after `FIX_BNU`): `cofactor * privateA mod orderN`. -/
theorem cofactorScaledF_value (pEC : IppsGFpECState) (privA : IppsBigNumState)
    (hwf : ECWellFormed pEC) :
    bnuToNat ((cofactorScaledF pEC privA).take (FIX_BNU (cofactorScaledF pEC privA)))
      = pEC.cofactor * bnuToNat (privA.number.take privA.size) % pEC.orderN := by
  obtain ⟨hm, hfit, hR⟩ := hwf
  rw [bnuToNat_take_FIX_BNU]
  unfold cofactorScaledF cpMontMul_BNU_EX cpMontEnc_BNU_EX
  set p := bnuToNat (privA.number.take privA.size) with hp
  have hlen : (natToBnu pEC.ordLen (p * pEC.montR % pEC.orderN)).length = pEC.ordLen :=
    natToBnu_length _ _
  rw [List.take_of_length_le hlen.le]
  have henc : bnuToNat (natToBnu pEC.ordLen (p * pEC.montR % pEC.orderN))
      = p * pEC.montR % pEC.orderN :=
    bnuToNat_natToBnu_of_lt _ _ (lt_of_lt_of_le (Nat.mod_lt _ hm) hfit)
  rw [henc]
  have hco : bnuToNat ([pEC.cofactor].take 1) = pEC.cofactor := by
    simp [bnuToNat]
  rw [hco, bnuToNat_natToBnu]
  have hval : p * pEC.montR % pEC.orderN * pEC.cofactor * pEC.montRinv % pEC.orderN
      = pEC.cofactor * p % pEC.orderN := by
    have h1 : p * pEC.montR % pEC.orderN * pEC.cofactor * pEC.montRinv
        ≡ p * pEC.montR * pEC.cofactor * pEC.montRinv [MOD pEC.orderN] :=
      ((Nat.mod_modEq (p * pEC.montR) pEC.orderN).mul_right pEC.cofactor).mul_right
        pEC.montRinv
    have h2 : pEC.montR * pEC.montRinv ≡ 1 [MOD pEC.orderN] := hR
    have h3 : p * pEC.montR * pEC.cofactor * pEC.montRinv
        = pEC.cofactor * p * (pEC.montR * pEC.montRinv) := by ring
    have h4 : pEC.cofactor * p * (pEC.montR * pEC.montRinv)
        ≡ pEC.cofactor * p * 1 [MOD pEC.orderN] :=
      h2.mul_left (pEC.cofactor * p)
    calc p * pEC.montR % pEC.orderN * pEC.cofactor * pEC.montRinv % pEC.orderN
        = p * pEC.montR * pEC.cofactor * pEC.montRinv % pEC.orderN := h1
      _ = pEC.cofactor * p * (pEC.montR * pEC.montRinv) % pEC.orderN := by rw [h3]
      _ = pEC.cofactor * p * 1 % pEC.orderN := h4
      _ = pEC.cofactor * p % pEC.orderN := by rw [Nat.mul_one]
  rw [← hval]
  exact Nat.mod_eq_of_lt (lt_of_lt_of_le (Nat.mod_lt _ hm) hfit)

theorem encodeShare_good (pEC : IppsGFpECState) (share : IppsBigNumState)
    (x : Nat) (hdec : (pEC.decode x).length = pEC.felen)
    (hfe : 1 ≤ pEC.felen) (hroom : pEC.felen ≤ share.room) :
    goodShareOutput pEC x share (encodeShare pEC share x) := by
  have hlen : (pEC.decode x ++ cpGFpElementPadd (share.room - pEC.felen)).length
      = share.room := by
    simp only [List.length_append, cpGFpElementPadd, List.length_replicate, hdec]
    omega
  have hne : pEC.decode x ++ cpGFpElementPadd (share.room - pEC.felen) ≠ [] := by
    intro h
    rw [h] at hlen
    simp only [List.length_nil] at hlen
    omega
  refine ⟨hlen, ?_, ?_, rfl, ?_, ?_, ?_, ?_, ?_⟩
  · show (pEC.decode x ++ cpGFpElementPadd (share.room - pEC.felen)).take pEC.felen
      = pEC.decode x
    rw [← hdec, List.take_left]
  · show (pEC.decode x ++ cpGFpElementPadd (share.room - pEC.felen)).drop pEC.felen
      = List.replicate (share.room - pEC.felen) 0
    rw [← hdec, List.drop_left]
    rfl
  · exact FIX_BNU_pos _ hne
  · exact FIX_BNU_le_length _ hne
  · exact bnuToNat_take_FIX_BNU _
  · exact fun j hj => getD_eq_zero_of_FIX_BNU_le _ j hj
  · exact FIX_BNU_minimal _ hne

theorem dhCompute_status (pEC : IppsGFpECState) (privA : IppsBigNumState)
    (pubB : IppsGFpECPoint) (share : IppsBigNumState) (pools : ECPools) :
    (dhCompute pEC privA pubB share pools).status = ippStsNoErr ∨
    (dhCompute pEC privA pubB share pools).status = ippStsShareKeyErr := by
  by_cases hf : (gfec_GetPoint pEC
      (gfec_MulPoint pEC pubB.pointValue privA.number privA.size)).1 = true <;>
    simp [dhCompute, hf]

theorem dhcCompute_status (pEC : IppsGFpECState) (privA : IppsBigNumState)
    (pubB : IppsGFpECPoint) (share : IppsBigNumState) (pools : ECPools) :
    (dhcCompute pEC privA pubB share pools).status = ippStsNoErr ∨
    (dhcCompute pEC privA pubB share pools).status = ippStsShareKeyErr := by
  by_cases hf : (gfec_GetPoint pEC
      (gfec_MulPoint pEC pubB.pointValue (cofactorScaledF pEC privA)
        (FIX_BNU (cofactorScaledF pEC privA)))).1 = true <;>
    simp [dhcCompute, hf]

theorem dh_failure_pools (pP : Option IppsBigNumState)
    (pB : Option IppsGFpECPoint) (pS : Option IppsBigNumState)
    (pE : Option IppsGFpECState) (scr : Option Unit) (pools : ECPools)
    (h : (ippsGFpECSharedSecretDH pP pB pS pE scr pools).status ≠ ippStsNoErr ∧
         (ippsGFpECSharedSecretDH pP pB pS pE scr pools).status ≠ ippStsShareKeyErr) :
    (ippsGFpECSharedSecretDH pP pB pS pE scr pools).pools = pools := by
  rcases pE with _ | ec
  · cases scr <;> rfl
  rcases scr with _ | scr
  · rfl
  cases hec : ec.idCtx
  · simp [ippsGFpECSharedSecretDH, hec]
  rcases pP with _ | privA
  · simp [ippsGFpECSharedSecretDH, hec]
  cases hpa : privA.idCtx
  · simp [ippsGFpECSharedSecretDH, hec, hpa]
  rcases pB with _ | pubB
  · simp [ippsGFpECSharedSecretDH, hec, hpa]
  cases hpb : pubB.idCtx
  · simp [ippsGFpECSharedSecretDH, hec, hpa, hpb]
  rcases pS with _ | share
  · simp [ippsGFpECSharedSecretDH, hec, hpa, hpb]
  cases hs : share.idCtx
  · simp [ippsGFpECSharedSecretDH, hec, hpa, hpb, hs]
  by_cases hroom : share.room < ec.felen
  · simp [ippsGFpECSharedSecretDH, hec, hpa, hpb, hs, hroom]
  · exfalso
    have he : ippsGFpECSharedSecretDH (some privA) (some pubB) (some share)
        (some ec) (some scr) pools = dhCompute ec privA pubB share pools :=
      dh_valid_eq ec privA pubB share pools
        ⟨hec, hpa, hpb, hs, Nat.not_lt.mp hroom⟩
    rw [he] at h
    rcases dhCompute_status ec privA pubB share pools with h1 | h1
    · exact h.1 h1
    · exact h.2 h1

theorem dhc_failure_pools (pP : Option IppsBigNumState)
    (pB : Option IppsGFpECPoint) (pS : Option IppsBigNumState)
    (pE : Option IppsGFpECState) (scr : Option Unit) (pools : ECPools)
    (h : (ippsGFpECSharedSecretDHC pP pB pS pE scr pools).status ≠ ippStsNoErr ∧
         (ippsGFpECSharedSecretDHC pP pB pS pE scr pools).status ≠ ippStsShareKeyErr) :
    (ippsGFpECSharedSecretDHC pP pB pS pE scr pools).pools = pools := by
  rcases pE with _ | ec
  · cases scr <;> rfl
  rcases scr with _ | scr
  · rfl
  cases hec : ec.idCtx
  · simp [ippsGFpECSharedSecretDHC, hec]
  rcases pP with _ | privA
  · simp [ippsGFpECSharedSecretDHC, hec]
  cases hpa : privA.idCtx
  · simp [ippsGFpECSharedSecretDHC, hec, hpa]
  rcases pB with _ | pubB
  · simp [ippsGFpECSharedSecretDHC, hec, hpa]
  cases hpb : pubB.idCtx
  · simp [ippsGFpECSharedSecretDHC, hec, hpa, hpb]
  rcases pS with _ | share
  · simp [ippsGFpECSharedSecretDHC, hec, hpa, hpb]
  cases hs : share.idCtx
  · simp [ippsGFpECSharedSecretDHC, hec, hpa, hpb, hs]
  by_cases hroom : share.room < ec.felen
  · simp [ippsGFpECSharedSecretDHC, hec, hpa, hpb, hs, hroom]
  · exfalso
    have he : ippsGFpECSharedSecretDHC (some privA) (some pubB) (some share)
        (some ec) (some scr) pools = dhcCompute ec privA pubB share pools :=
      dhc_valid_eq ec privA pubB share pools
        ⟨hec, hpa, hpb, hs, Nat.not_lt.mp hroom⟩
    rw [he] at h
    rcases dhcCompute_status ec privA pubB share pools with h1 | h1
    · exact h.1 h1
    · exact h.2 h1

/-! ## Claim theorems -/

/-- C1: for every validated input where the coordinate extraction reports
the derived point `T` as not finite, both entry points return the
`ippStsShareKeyErr` (DegenerateSharedSecret) status and write nothing to
the output buffer: its limbs, sign and size are exactly as before the
call. -/
theorem claim_C1_degenerate_no_write
    (pEC : IppsGFpECState) (privA : IppsBigNumState) (pubB : IppsGFpECPoint)
    (share : IppsBigNumState) (pools : ECPools)
    (hv : validCall pEC privA pubB share)
    (hDH : (gfec_GetPoint pEC
        (gfec_MulPoint pEC pubB.pointValue privA.number privA.size)).1 = false)
    (hDHC : (gfec_GetPoint pEC
        (gfec_MulPoint pEC pubB.pointValue (cofactorScaledF pEC privA)
          (FIX_BNU (cofactorScaledF pEC privA)))).1 = false) :
    (ippsGFpECSharedSecretDH (some privA) (some pubB) (some share) (some pEC)
        (some ()) pools).status = ippStsShareKeyErr ∧
    (ippsGFpECSharedSecretDH (some privA) (some pubB) (some share) (some pEC)
        (some ()) pools).share = some share ∧
    (ippsGFpECSharedSecretDHC (some privA) (some pubB) (some share) (some pEC)
        (some ()) pools).status = ippStsShareKeyErr ∧
    (ippsGFpECSharedSecretDHC (some privA) (some pubB) (some share) (some pEC)
        (some ()) pools).share = some share := by
  rw [dh_valid_eq _ _ _ _ _ hv, dhc_valid_eq _ _ _ _ _ hv]
  simp [dhCompute, dhcCompute, hDH, hDHC]

/-- Witness for C1 at a concrete degenerate input (identity public
point on `ecP5`). -/
theorem claim_C1_witness :
    (ippsGFpECSharedSecretDH (some bnTwo) (some pubIdent) (some shareBuf)
        (some ecP5) (some ()) pools0).status = ippStsShareKeyErr ∧
    (ippsGFpECSharedSecretDH (some bnTwo) (some pubIdent) (some shareBuf)
        (some ecP5) (some ()) pools0).share = some shareBuf ∧
    (ippsGFpECSharedSecretDHC (some bnTwo) (some pubIdent) (some shareBuf)
        (some ecP5) (some ()) pools0).status = ippStsShareKeyErr ∧
    (ippsGFpECSharedSecretDHC (some bnTwo) (some pubIdent) (some shareBuf)
        (some ecP5) (some ()) pools0).share = some shareBuf :=
  claim_C1_degenerate_no_write ecP5 bnTwo pubIdent shareBuf pools0
    (by decide) (by decide) (by decide)

/-- C3: in the cofactor variant the scalar fed to the point
multiplication (the `FIX_BNU`-trimmed scratch value `F` produced by the
Montgomery encode/multiply chain) equals
`cofactor * privateScalar mod orderN`; the scratch value occupies the
group order's limb width, and the derived point is the cofactor-scaled
multiple of the public point. -/
theorem claim_C3_cofactor_scaling
    (pEC : IppsGFpECState) (privA : IppsBigNumState)
    (hwf : ECWellFormed pEC) :
    bnuToNat ((cofactorScaledF pEC privA).take
        (FIX_BNU (cofactorScaledF pEC privA)))
      = pEC.cofactor * bnuToNat (privA.number.take privA.size) % pEC.orderN ∧
    (cofactorScaledF pEC privA).length = pEC.ordLen ∧
    (∀ pubB : IppsGFpECPoint,
      gfec_MulPoint pEC pubB.pointValue (cofactorScaledF pEC privA)
          (FIX_BNU (cofactorScaledF pEC privA))
        = pEC.cofactor * bnuToNat (privA.number.take privA.size) % pEC.orderN
            * pubB.pointValue % ecGroupSize pEC) := by
  refine ⟨cofactorScaledF_value pEC privA hwf, natToBnu_length _ _, ?_⟩
  intro pubB
  unfold gfec_MulPoint
  rw [cofactorScaledF_value pEC privA hwf]

/-- Witness for C3 on the cofactor-2 context `ecP5co2` with private
scalar 3 (scaled scalar 2·3 mod 5 = 1). -/
theorem claim_C3_witness :
    bnuToNat ((cofactorScaledF ecP5co2 bnThree).take
        (FIX_BNU (cofactorScaledF ecP5co2 bnThree)))
      = ecP5co2.cofactor * bnuToNat (bnThree.number.take bnThree.size)
          % ecP5co2.orderN ∧
    (cofactorScaledF ecP5co2 bnThree).length = ecP5co2.ordLen ∧
    (∀ pubB : IppsGFpECPoint,
      gfec_MulPoint ecP5co2 pubB.pointValue (cofactorScaledF ecP5co2 bnThree)
          (FIX_BNU (cofactorScaledF ecP5co2 bnThree))
        = ecP5co2.cofactor * bnuToNat (bnThree.number.take bnThree.size)
            % ecP5co2.orderN * pubB.pointValue % ecGroupSize ecP5co2) :=
  claim_C3_cofactor_scaling ecP5co2 bnThree (by decide)

/-- C4 counterexample: a null private scalar together with a curve
context whose tag is invalid makes `ippsGFpECSharedSecretDH` return
`ippStsContextMatchErr`, not `ippStsNullPtrErr` — the null check of a
later-checked argument does not override an earlier argument's tag
failure, so a null pointer does not yield `NullPointer` independent of
the other arguments' validity. -/
theorem claim_C4_counterexample :
    (ippsGFpECSharedSecretDH none (some pubTwo) (some shareBuf)
        (some ecBadTag) (some ()) pools0).status = ippStsContextMatchErr ∧
    ¬ (ippsGFpECSharedSecretDH none (some pubTwo) (some shareBuf)
        (some ecBadTag) (some ()) pools0).status = ippStsNullPtrErr := by
  decide

/-- C4 (amended): each of the four pointer arguments, when null, makes
both entry points return `ippStsNullPtrErr`, provided every argument
checked earlier in the fixed validation order (curve context and
scratch buffer, then the private scalar and its tag, then the public
point and its tag) is present and passes its check — each case
constrains only the earlier-checked arguments, the later ones stay
arbitrary; a null curve context yields `ippStsNullPtrErr`
unconditionally. -/
theorem claim_C4_null_pointer_checks
    (privA : IppsBigNumState) (pubB : IppsGFpECPoint)
    (pEC : IppsGFpECState) (pools : ECPools)
    (pP : Option IppsBigNumState) (pB : Option IppsGFpECPoint)
    (pS : Option IppsBigNumState) (scr : Option Unit) :
    ((ippsGFpECSharedSecretDH pP pB pS none scr pools).status
        = ippStsNullPtrErr) ∧
    (pEC.idCtx = true →
      (ippsGFpECSharedSecretDH none pB pS (some pEC)
        (some ()) pools).status = ippStsNullPtrErr) ∧
    (pEC.idCtx = true → privA.idCtx = true →
      (ippsGFpECSharedSecretDH (some privA) none pS (some pEC)
        (some ()) pools).status = ippStsNullPtrErr) ∧
    (pEC.idCtx = true → privA.idCtx = true → pubB.idCtx = true →
      (ippsGFpECSharedSecretDH (some privA) (some pubB) none (some pEC)
        (some ()) pools).status = ippStsNullPtrErr) ∧
    ((ippsGFpECSharedSecretDHC pP pB pS none scr pools).status
        = ippStsNullPtrErr) ∧
    (pEC.idCtx = true →
      (ippsGFpECSharedSecretDHC none pB pS (some pEC)
        (some ()) pools).status = ippStsNullPtrErr) ∧
    (pEC.idCtx = true → privA.idCtx = true →
      (ippsGFpECSharedSecretDHC (some privA) none pS (some pEC)
        (some ()) pools).status = ippStsNullPtrErr) ∧
    (pEC.idCtx = true → privA.idCtx = true → pubB.idCtx = true →
      (ippsGFpECSharedSecretDHC (some privA) (some pubB) none (some pEC)
        (some ()) pools).status = ippStsNullPtrErr) := by
  refine ⟨?_, ?_, ?_, ?_, ?_, ?_, ?_, ?_⟩
  · cases scr <;> rfl
  · intro hec
    simp [ippsGFpECSharedSecretDH, hec]
  · intro hec hpa
    simp [ippsGFpECSharedSecretDH, hec, hpa]
  · intro hec hpa hpb
    simp [ippsGFpECSharedSecretDH, hec, hpa, hpb]
  · cases scr <;> rfl
  · intro hec
    simp [ippsGFpECSharedSecretDHC, hec]
  · intro hec hpa
    simp [ippsGFpECSharedSecretDHC, hec, hpa]
  · intro hec hpa hpb
    simp [ippsGFpECSharedSecretDHC, hec, hpa, hpb]

/-- Witness for the amended C4 at concrete arguments, with every
proviso discharged. -/
theorem claim_C4_witness :
    (ippsGFpECSharedSecretDH (some bnTwo) (some pubTwo) (some shareBuf) none
        (some ()) pools0).status = ippStsNullPtrErr ∧
    (ippsGFpECSharedSecretDH none (some pubTwo) (some shareBuf) (some ecP5)
        (some ()) pools0).status = ippStsNullPtrErr ∧
    (ippsGFpECSharedSecretDH (some bnTwo) none (some shareBuf) (some ecP5)
        (some ()) pools0).status = ippStsNullPtrErr ∧
    (ippsGFpECSharedSecretDH (some bnTwo) (some pubTwo) none (some ecP5)
        (some ()) pools0).status = ippStsNullPtrErr ∧
    (ippsGFpECSharedSecretDHC (some bnTwo) (some pubTwo) (some shareBuf) none
        (some ()) pools0).status = ippStsNullPtrErr ∧
    (ippsGFpECSharedSecretDHC none (some pubTwo) (some shareBuf) (some ecP5)
        (some ()) pools0).status = ippStsNullPtrErr ∧
    (ippsGFpECSharedSecretDHC (some bnTwo) none (some shareBuf) (some ecP5)
        (some ()) pools0).status = ippStsNullPtrErr ∧
    (ippsGFpECSharedSecretDHC (some bnTwo) (some pubTwo) none (some ecP5)
        (some ()) pools0).status = ippStsNullPtrErr := by
  have h := claim_C4_null_pointer_checks bnTwo pubTwo ecP5 pools0
    (some bnTwo) (some pubTwo) (some shareBuf) (some ())
  exact ⟨h.1, h.2.1 rfl, h.2.2.1 rfl rfl, h.2.2.2.1 rfl rfl rfl,
    h.2.2.2.2.1, h.2.2.2.2.2.1 rfl, h.2.2.2.2.2.2.1 rfl rfl,
    h.2.2.2.2.2.2.2 rfl rfl rfl⟩

/-- C5: when every pointer and context-tag check passes but the output
buffer's capacity `room` is below the field-element length, both entry
points return `ippStsRangeErr` with the output buffer and the pool
counters untouched — no computation is performed. -/
theorem claim_C5_insufficient_room
    (pEC : IppsGFpECState) (privA : IppsBigNumState) (pubB : IppsGFpECPoint)
    (share : IppsBigNumState) (pools : ECPools)
    (hec : pEC.idCtx = true) (hpriv : privA.idCtx = true)
    (hpub : pubB.idCtx = true) (hshare : share.idCtx = true)
    (hroom : share.room < pEC.felen) :
    ippsGFpECSharedSecretDH (some privA) (some pubB) (some share) (some pEC)
        (some ()) pools = ⟨ippStsRangeErr, some share, pools⟩ ∧
    ippsGFpECSharedSecretDHC (some privA) (some pubB) (some share) (some pEC)
        (some ()) pools = ⟨ippStsRangeErr, some share, pools⟩ := by
  constructor <;>
    simp [ippsGFpECSharedSecretDH, ippsGFpECSharedSecretDHC,
      hec, hpriv, hpub, hshare, hroom]

/-- Witness for C5: a share buffer with zero room on `ecP5`. -/
theorem claim_C5_witness :
    ippsGFpECSharedSecretDH (some bnTwo) (some pubTwo) (some shareNoRoom)
        (some ecP5) (some ()) pools0 = ⟨ippStsRangeErr, some shareNoRoom, pools0⟩ ∧
    ippsGFpECSharedSecretDHC (some bnTwo) (some pubTwo) (some shareNoRoom)
        (some ecP5) (some ()) pools0 = ⟨ippStsRangeErr, some shareNoRoom, pools0⟩ :=
  claim_C5_insufficient_room ecP5 bnTwo pubTwo shareNoRoom pools0
    (by decide) (by decide) (by decide) (by decide) (by decide)

/-- C10: a null scratch-buffer pointer is detected together with the
curve-context null check: both entry points return `ippStsNullPtrErr`
immediately, before any other validation or computation, whatever the
other arguments are; the share buffer and the pool counters are
untouched. -/
theorem claim_C10_null_scratch
    (pP : Option IppsBigNumState) (pB : Option IppsGFpECPoint)
    (pS : Option IppsBigNumState) (pE : Option IppsGFpECState)
    (pools : ECPools) :
    ippsGFpECSharedSecretDH pP pB pS pE none pools
        = ⟨ippStsNullPtrErr, pS, pools⟩ ∧
    ippsGFpECSharedSecretDHC pP pB pS pE none pools
        = ⟨ippStsNullPtrErr, pS, pools⟩ := by
  constructor <;> (rcases pE with _ | ec <;> rfl)

/-- C2: on every successful call of either entry point the output big
integer holds the decoded canonical x-coordinate of the derived point
in its low `felen` limbs, every limb from `felen` up to `room` is zero,
the sign is positive, and the reported size is the normalized length
(high-order zero limbs trimmed, never below 1 limb). -/
theorem claim_C2_success_encoding
    (pEC : IppsGFpECState) (privA : IppsBigNumState) (pubB : IppsGFpECPoint)
    (share : IppsBigNumState) (pools : ECPools)
    (hv : validCall pEC privA pubB share)
    (hfe : 1 ≤ pEC.felen)
    (hdec : ∀ x, (pEC.decode x).length = pEC.felen) :
    ((gfec_GetPoint pEC
        (gfec_MulPoint pEC pubB.pointValue privA.number privA.size)).1 = true →
      (ippsGFpECSharedSecretDH (some privA) (some pubB) (some share) (some pEC)
          (some ()) pools).status = ippStsNoErr ∧
      ∃ sh, (ippsGFpECSharedSecretDH (some privA) (some pubB) (some share)
          (some pEC) (some ()) pools).share = some sh ∧
        goodShareOutput pEC (gfec_GetPoint pEC
          (gfec_MulPoint pEC pubB.pointValue privA.number privA.size)).2 share sh) ∧
    ((gfec_GetPoint pEC
        (gfec_MulPoint pEC pubB.pointValue (cofactorScaledF pEC privA)
          (FIX_BNU (cofactorScaledF pEC privA)))).1 = true →
      (ippsGFpECSharedSecretDHC (some privA) (some pubB) (some share) (some pEC)
          (some ()) pools).status = ippStsNoErr ∧
      ∃ sh, (ippsGFpECSharedSecretDHC (some privA) (some pubB) (some share)
          (some pEC) (some ()) pools).share = some sh ∧
        goodShareOutput pEC (gfec_GetPoint pEC
          (gfec_MulPoint pEC pubB.pointValue (cofactorScaledF pEC privA)
            (FIX_BNU (cofactorScaledF pEC privA)))).2 share sh) := by
  have hroom : pEC.felen ≤ share.room := hv.2.2.2.2
  rw [dh_valid_eq _ _ _ _ _ hv, dhc_valid_eq _ _ _ _ _ hv]
  constructor
  · intro hDH
    refine ⟨by simp [dhCompute, hDH], encodeShare pEC share _, ?_,
      encodeShare_good pEC share _ (hdec _) hfe hroom⟩
    simp [dhCompute, hDH]
  · intro hDHC
    refine ⟨by simp [dhcCompute, hDHC], encodeShare pEC share _, ?_,
      encodeShare_good pEC share _ (hdec _) hfe hroom⟩
    simp [dhcCompute, hDHC]

/-- Witness for C2 on `ecP5` with private scalar 2 and public point 2
(derived point 4, a finite point in both variants), with both
finiteness antecedents discharged. -/
theorem claim_C2_witness :
    ((ippsGFpECSharedSecretDH (some bnTwo) (some pubTwo) (some shareBuf)
        (some ecP5) (some ()) pools0).status = ippStsNoErr ∧
      ∃ sh, (ippsGFpECSharedSecretDH (some bnTwo) (some pubTwo) (some shareBuf)
          (some ecP5) (some ()) pools0).share = some sh ∧
        goodShareOutput ecP5 (gfec_GetPoint ecP5
          (gfec_MulPoint ecP5 pubTwo.pointValue bnTwo.number bnTwo.size)).2
          shareBuf sh) ∧
    ((ippsGFpECSharedSecretDHC (some bnTwo) (some pubTwo) (some shareBuf)
        (some ecP5) (some ()) pools0).status = ippStsNoErr ∧
      ∃ sh, (ippsGFpECSharedSecretDHC (some bnTwo) (some pubTwo) (some shareBuf)
          (some ecP5) (some ()) pools0).share = some sh ∧
        goodShareOutput ecP5 (gfec_GetPoint ecP5
          (gfec_MulPoint ecP5 pubTwo.pointValue (cofactorScaledF ecP5 bnTwo)
            (FIX_BNU (cofactorScaledF ecP5 bnTwo)))).2 shareBuf sh) := by
  have h := claim_C2_success_encoding ecP5 bnTwo pubTwo shareBuf pools0
    (by decide) (by decide) (fun x => rfl)
  exact ⟨h.1 (by decide), h.2 (by decide)⟩

/-- C6: on every valid input over a curve with cofactor 1 the cofactor
entry point returns exactly the same result (status, output buffer and
pool counters) as the plain entry point. -/
theorem claim_C6_cofactor_one_equiv
    (pEC : IppsGFpECState) (privA : IppsBigNumState) (pubB : IppsGFpECPoint)
    (share : IppsBigNumState) (pools : ECPools)
    (hv : validCall pEC privA pubB share) (hwf : ECWellFormed pEC)
    (hco : pEC.cofactor = 1) :
    ippsGFpECSharedSecretDHC (some privA) (some pubB) (some share) (some pEC)
        (some ()) pools
      = ippsGFpECSharedSecretDH (some privA) (some pubB) (some share) (some pEC)
        (some ()) pools := by
  rw [dh_valid_eq _ _ _ _ _ hv, dhc_valid_eq _ _ _ _ _ hv]
  have hgs : ecGroupSize pEC = pEC.orderN := by
    simp [ecGroupSize, hco]
  have hT : gfec_MulPoint pEC pubB.pointValue (cofactorScaledF pEC privA)
      (FIX_BNU (cofactorScaledF pEC privA))
      = gfec_MulPoint pEC pubB.pointValue privA.number privA.size := by
    unfold gfec_MulPoint
    rw [cofactorScaledF_value pEC privA hwf, hco, one_mul, hgs, Nat.mod_mul_mod]
  simp [dhCompute, dhcCompute, hT, cpGFpGetPool, cpEcGFpGetPool,
    cpGFpReleasePool, cpEcGFpReleasePool]

/-- Witness for C6 at a concrete input on the cofactor-1 context `ecP5`. -/
theorem claim_C6_witness :
    ippsGFpECSharedSecretDHC (some bnThree) (some pubTwo) (some shareBuf)
        (some ecP5) (some ()) pools0
      = ippsGFpECSharedSecretDH (some bnThree) (some pubTwo) (some shareBuf)
        (some ecP5) (some ()) pools0 :=
  claim_C6_cofactor_one_equiv ecP5 bnThree pubTwo shareBuf pools0
    (by decide) (by decide) rfl

/-- C7 (ECDH symmetry): with `pubA = [privA]G` and `pubB = [privB]G`,
the plain entry point applied to `(privA, pubB)` and to `(privB, pubA)`
returns the same status and the same result. -/
theorem claim_C7_symmetry
    (pEC : IppsGFpECState) (privA privB : IppsBigNumState)
    (pubA pubB : IppsGFpECPoint) (share : IppsBigNumState) (pools : ECPools)
    (hpubA : pubA.pointValue
      = gfec_MulPoint pEC pEC.genG privA.number privA.size)
    (hpubB : pubB.pointValue
      = gfec_MulPoint pEC pEC.genG privB.number privB.size)
    (hvA : validCall pEC privA pubB share)
    (hvB : validCall pEC privB pubA share) :
    ippsGFpECSharedSecretDH (some privA) (some pubB) (some share) (some pEC)
        (some ()) pools
      = ippsGFpECSharedSecretDH (some privB) (some pubA) (some share) (some pEC)
        (some ()) pools := by
  rw [dh_valid_eq _ _ _ _ _ hvA, dh_valid_eq _ _ _ _ _ hvB]
  have hT : gfec_MulPoint pEC pubB.pointValue privA.number privA.size
      = gfec_MulPoint pEC pubA.pointValue privB.number privB.size := by
    rw [hpubA, hpubB]
    unfold gfec_MulPoint
    simp only [Nat.mul_mod_mod]
    congr 1
    ring
  simp [dhCompute, hT]

/-- Witness for C7 on `ecP5` with key pairs (2, [2]G) and (3, [3]G). -/
theorem claim_C7_witness :
    ippsGFpECSharedSecretDH (some bnTwo) (some pubThree) (some shareBuf)
        (some ecP5) (some ()) pools0
      = ippsGFpECSharedSecretDH (some bnThree) (some pubTwo) (some shareBuf)
        (some ecP5) (some ()) pools0 :=
  claim_C7_symmetry ecP5 bnTwo bnThree pubTwo pubThree shareBuf pools0
    (by decide) (by decide) (by decide) (by decide)

/-- C8: on a valid input with a nonzero private scalar and a public
point equal to the identity element, the plain entry point returns
`ippStsShareKeyErr` (the scalar multiple of the identity is the
identity). -/
theorem claim_C8_identity_public_point
    (pEC : IppsGFpECState) (privA : IppsBigNumState) (pubB : IppsGFpECPoint)
    (share : IppsBigNumState) (pools : ECPools)
    (hv : validCall pEC privA pubB share)
    (hnz : bnuToNat (privA.number.take privA.size) ≠ 0)
    (hident : pubB.pointValue % ecGroupSize pEC = 0) :
    (ippsGFpECSharedSecretDH (some privA) (some pubB) (some share) (some pEC)
        (some ()) pools).status = ippStsShareKeyErr := by
  rw [dh_valid_eq _ _ _ _ _ hv]
  have hT : gfec_MulPoint pEC pubB.pointValue privA.number privA.size
      % ecGroupSize pEC = 0 := by
    unfold gfec_MulPoint
    rw [Nat.mod_mod_of_dvd _ dvd_rfl, Nat.mul_mod, hident, Nat.mul_zero,
      Nat.zero_mod]
  simp [dhCompute, gfec_GetPoint, hT]

/-- Witness for C8: nonzero scalar 2 against the identity point on `ecP5`. -/
theorem claim_C8_witness :
    (ippsGFpECSharedSecretDH (some bnTwo) (some pubIdent) (some shareBuf)
        (some ecP5) (some ()) pools0).status = ippStsShareKeyErr :=
  claim_C8_identity_public_point ecP5 bnTwo pubIdent shareBuf pools0
    (by decide) (by decide) (by decide)

/-- C9: every call that passes validation reserves exactly one scratch
point and one scratch field element and releases both before returning
(on the success and the degenerate paths alike), so each cumulative
counter advances by exactly one; a call that fails validation (status
`ippStsNullPtrErr`, `ippStsContextMatchErr` or `ippStsRangeErr`) leaves
every pool counter unchanged, having reserved nothing. -/
theorem claim_C9_pool_discipline
    (pEC : IppsGFpECState) (privA : IppsBigNumState) (pubB : IppsGFpECPoint)
    (share : IppsBigNumState)
    (pP : Option IppsBigNumState) (pB : Option IppsGFpECPoint)
    (pS : Option IppsBigNumState) (pE : Option IppsGFpECState)
    (scr : Option Unit) (pools : ECPools)
    (hv : validCall pEC privA pubB share)
    (hfailDH : (ippsGFpECSharedSecretDH pP pB pS pE scr pools).status
          = ippStsNullPtrErr ∨
        (ippsGFpECSharedSecretDH pP pB pS pE scr pools).status
          = ippStsContextMatchErr ∨
        (ippsGFpECSharedSecretDH pP pB pS pE scr pools).status
          = ippStsRangeErr)
    (hfailDHC : (ippsGFpECSharedSecretDHC pP pB pS pE scr pools).status
          = ippStsNullPtrErr ∨
        (ippsGFpECSharedSecretDHC pP pB pS pE scr pools).status
          = ippStsContextMatchErr ∨
        (ippsGFpECSharedSecretDHC pP pB pS pE scr pools).status
          = ippStsRangeErr) :
    (ippsGFpECSharedSecretDH (some privA) (some pubB) (some share) (some pEC)
        (some ()) pools).pools
      = ⟨pools.gfpReserved + 1, pools.gfpReleased + 1,
          pools.ecReserved + 1, pools.ecReleased + 1⟩ ∧
    (ippsGFpECSharedSecretDHC (some privA) (some pubB) (some share) (some pEC)
        (some ()) pools).pools
      = ⟨pools.gfpReserved + 1, pools.gfpReleased + 1,
          pools.ecReserved + 1, pools.ecReleased + 1⟩ ∧
    (ippsGFpECSharedSecretDH pP pB pS pE scr pools).pools = pools ∧
    (ippsGFpECSharedSecretDHC pP pB pS pE scr pools).pools = pools := by
  refine ⟨?_, ?_, ?_, ?_⟩
  · rw [dh_valid_eq _ _ _ _ _ hv]
    simp [dhCompute, cpGFpGetPool, cpEcGFpGetPool, cpGFpReleasePool,
      cpEcGFpReleasePool]
  · rw [dhc_valid_eq _ _ _ _ _ hv]
    simp [dhcCompute, cpGFpGetPool, cpEcGFpGetPool, cpGFpReleasePool,
      cpEcGFpReleasePool]
  · refine dh_failure_pools pP pB pS pE scr pools ⟨?_, ?_⟩ <;>
      rcases hfailDH with h | h | h <;> simp [h]
  · refine dhc_failure_pools pP pB pS pE scr pools ⟨?_, ?_⟩ <;>
      rcases hfailDHC with h | h | h <;> simp [h]

/-- Witness for C9: a validated call on `ecP5` together with a failing
call (null curve context). -/
theorem claim_C9_witness :
    (ippsGFpECSharedSecretDH (some bnTwo) (some pubTwo) (some shareBuf)
        (some ecP5) (some ()) pools0).pools
      = ⟨pools0.gfpReserved + 1, pools0.gfpReleased + 1,
          pools0.ecReserved + 1, pools0.ecReleased + 1⟩ ∧
    (ippsGFpECSharedSecretDHC (some bnTwo) (some pubTwo) (some shareBuf)
        (some ecP5) (some ()) pools0).pools
      = ⟨pools0.gfpReserved + 1, pools0.gfpReleased + 1,
          pools0.ecReserved + 1, pools0.ecReleased + 1⟩ ∧
    (ippsGFpECSharedSecretDH (some bnTwo) (some pubTwo) (some shareBuf) none
        (some ()) pools0).pools = pools0 ∧
    (ippsGFpECSharedSecretDHC (some bnTwo) (some pubTwo) (some shareBuf) none
        (some ()) pools0).pools = pools0 :=
  claim_C9_pool_discipline ecP5 bnTwo pubTwo shareBuf
    (some bnTwo) (some pubTwo) (some shareBuf) none (some ()) pools0
    (by decide) (by decide) (by decide)

end EpidEcdh
